import Mathlib

/-!
Shallow embedding of the per-quality segment production engine of
go-vod 0.1.16-optimized (package `transcoder`, file stream.go, together
with the manager and config definitions shipped in the same source file).

Conventions of the embedding:
* Go `int` is modelled as `Int`; Go integer division (which truncates
  toward zero) is `Int.tdiv`.
* The chunk table `map[int]*Chunk` is an association list `List Chunk`
  keyed by `Chunk.id` (every operation of the source preserves key
  uniqueness; lookups mirror map indexing).
* A live `*exec.Cmd` encoder is an epoch token `Coder`; pointer equality
  of the Go code is structural equality of tokens, and a freshly spawned
  encoder uses a fresh token (`nextTok`).
* The on-disk segment store of one stream is the list of `(id, extension)`
  pairs present in the temp directory (quality and directory are fixed per
  stream and elided from the file name).
* One-shot waiter channels are `Nat` tokens stored in `Chunk.notifs`;
  "send one value on channel n" is recorded by listing `n` in the
  signal output of a step.
* Blocking, goroutine scheduling and OS signals are modelled by splitting
  each blocking operation into its lock-held steps (register / wake,
  announce, exit observation) and recording emitted signals as outputs.
-/

namespace GoVod

/-- Segment container extension used in segment file names (`.ts` or `.mp4`). -/
inductive SegExt
  | ts
  | mp4
deriving DecidableEq, Repr

/-- A file of the per-stream segment store: chunk id plus extension
(stream.go `getTsPath` / `getSegmentPath` produce
`<tempDir>/<quality>-<%06d>.<ext>`; quality and directory are fixed). -/
abbrev SegFile := Int × SegExt

/-- Chunk record: id, done flag, registered waiter channels
(stream.go uses `chunk.id`, `chunk.done`, `chunk.notifs`). -/
structure Chunk where
  id : Int
  done : Bool
  notifs : List Nat
deriving DecidableEq, Repr

/-- Modelled from the spec: the `Chunk` constructor `NewChunk` lives in a
source file (chunk.go) that is not part of the snapshot; only its callers
are. Spec section 4.1: "Constructor takes `id`. `done` starts false,
`waiters` empty." -/
def NewChunk (id : Int) : Chunk := ⟨id, false, []⟩

/-- Epoch token for a live encoder process (`s.coder *exec.Cmd`).
`tok` stands for the pointer identity, `startId` is the chunk id the
encoder was asked to begin at (the argument of `Stream.transcode`). -/
structure Coder where
  tok : Nat
  startId : Int
deriving DecidableEq, Repr

/-- The probe fields consulted by the engine's adaptive logic
(`Manager.probe`). -/
structure Probe where
  bitRate : Int
  frameRate : Int
deriving DecidableEq, Repr

/-- The configuration fields consulted by the engine (config.go). -/
structure Config where
  chunkSize : Int
  lookBehind : Int
  goalBufferMin : Int
  goalBufferMax : Int
  streamIdleTime : Int
  enableFMP4 : Bool
  forceCompatibility : Bool
  lowBandwidthMode : Bool
deriving DecidableEq, Repr

/-- Mutable state of one `Stream` guarded by its mutex: chunk table,
stdout-dedup set `seenChunks`, `goal`, current encoder, inactivity counter.
`nextTok` is the supply of fresh encoder identities. -/
structure StreamState where
  chunks : List Chunk
  seenChunks : List Int
  goal : Int
  coder : Option Coder
  inactive : Int
  nextTok : Nat
deriving DecidableEq, Repr

/-- Map indexing `s.chunks[id]` on the association-list model. -/
def lookupChunk : List Chunk → Int → Option Chunk
  | [], _ => none
  | ch :: rest, id => if ch.id = id then some ch else lookupChunk rest id

/-- `Stream.createChunk`: return the existing chunk, or insert `NewChunk id`. -/
def createChunk (chunks : List Chunk) (id : Int) : List Chunk × Chunk :=
  match lookupChunk chunks id with
  | some c => (chunks, c)
  | none => (chunks ++ [NewChunk id], NewChunk id)

/-- `Stream.pruneChunk`: delete the table entry and call
`os.Remove(s.getTsPath(id))` — note the source removes only the `.ts`
path, whatever extension the encoder writes. -/
def pruneChunk (chunks : List Chunk) (disk : List SegFile) (id : Int) :
    List Chunk × List SegFile :=
  (chunks.filter (fun ch => decide (¬ ch.id = id)),
   disk.filter (fun f => decide (¬ f = (id, SegExt.ts))))

/-- The segment extension `Stream.transcode` configures the encoder to
write: `ts` by default, `mp4` when fMP4 is enabled, forced back to `ts`
in compatibility or low-bandwidth mode (stream.go lines 646-663). -/
def segmentExtFor (c : Config) : SegExt :=
  let ext := SegExt.ts
  let ext := if c.enableFMP4 && !c.forceCompatibility then SegExt.mp4 else ext
  let ext := if c.forceCompatibility || c.lowBandwidthMode then SegExt.ts else ext
  ext

/-- `Stream.clear`: prune every chunk (removing its `.ts` file), empty the
chunk table and the dedup set, reset the goal, kill and drop the encoder. -/
def clearStream (st : StreamState) (disk : List SegFile) :
    StreamState × List SegFile :=
  let disk := disk.filter
    (fun f => decide (¬ (f.2 = SegExt.ts ∧ (st.chunks.any (fun ch => ch.id = f.1)))))
  ({ st with chunks := [], seenChunks := [], goal := 0, coder := none }, disk)

/-- The start parameters `Stream.transcode` hands the encoder collaborator:
the value of `-start_number` and the seek position (in seconds) given to
`transcodeArgs` (which emits `-ss` only when it is positive). The source
decrements a positive `startId` before computing both. -/
structure EncoderInvocation where
  startNumber : Int
  startAt : Int
deriving DecidableEq, Repr

/-- Start-parameter computation of `Stream.transcode` (lines 636-642 and
666): `if startId > 0 { startId-- }; startAt := startId * ChunkSize`, then
`-start_number startId`. -/
def transcodeInvocation (chunkSize startId : Int) : EncoderInvocation :=
  let s := if startId > 0 then startId - 1 else startId
  ⟨s, s * chunkSize⟩

/-- `Stream.transcode`'s effect on stream state: install a fresh encoder
epoch that was asked to begin at `startId` (process spawn and the three
monitor goroutines are modelled as separate steps). -/
def transcode (st : StreamState) (startId : Int) : StreamState :=
  { st with coder := some ⟨st.nextTok, startId⟩, nextTok := st.nextTok + 1 }

/-- Go's `int(float64(x) * (num/den))` scalings of the adaptive logic,
modelled exactly as truncation of the rational product (Go truncates the
float64 product toward zero; for the small non-negative configuration
values involved the float64 computation agrees with the exact rational
one, and no theorem below depends on the magnitude of a scaled value). -/
def scaleTrunc (x num den : Int) : Int := Int.tdiv (x * num) den

/-- Effective goal buffers of `Stream.checkGoal` (lines 735-755): the
configured `GoalBufferMin`/`GoalBufferMax`, scaled ×1.5/×1.8 above 50 Mbps,
×1.4/×1.6 at 50 fps and above, with the max capped at 25 and the min
capped at half the (capped) max. -/
def effGoalBuffers (p : Probe) (c : Config) : Int × Int :=
  let gmin := c.goalBufferMin
  let gmax := c.goalBufferMax
  let gmin := if p.bitRate > 50000000 then scaleTrunc gmin 3 2 else gmin
  let gmax := if p.bitRate > 50000000 then scaleTrunc gmax 9 5 else gmax
  let gmin := if p.frameRate ≥ 50 then scaleTrunc gmin 7 5 else gmin
  let gmax := if p.frameRate ≥ 50 then scaleTrunc gmax 8 5 else gmax
  let gmax := if gmax > 25 then 25 else gmax
  let gmin := if gmin > Int.tdiv gmax 2 then Int.tdiv gmax 2 else gmin
  (gmin, gmax)

/-- Restart threshold of `Stream.checkGoal` (lines 776-782): half the
effective max, raised to 75% above 100 Mbps and to 60% above 50 Mbps or at
50 fps and above. -/
def restartThreshold (p : Probe) (gmax : Int) : Int :=
  if p.bitRate > 100000000 then scaleTrunc gmax 3 4
  else if p.bitRate > 50000000 ∨ p.frameRate ≥ 50 then scaleTrunc gmax 3 5
  else Int.tdiv gmax 2

/-- The loop `for i := id; i <= id+gmax; i++` of `checkGoal`, as the list
of visited indices. -/
def aheadRange (id gmax : Int) : List Int :=
  (List.range (gmax + 1).toNat).map (fun (k : Nat) => id + (k : Int))

/-- `chunksAhead` of `Stream.checkGoal` (lines 769-774): how many chunks
in `[id, id+gmax]` exist and are done. -/
def chunksAhead (chunks : List Chunk) (id gmax : Int) : Int :=
  ((aheadRange id gmax).filter
    (fun i => match lookupChunk chunks i with
              | some ch => ch.done
              | none => false)).length

/-- Signals `checkGoal` emits: whether SIGCONT was sent to a live encoder,
and the start id of a proactively spawned encoder, if any. -/
structure CheckGoalOut where
  resumed : Bool
  restartedAt : Option Int
deriving DecidableEq, Repr

/-- `Stream.checkGoal` (lines 734-804). First the goal advance: when
`id + goalBufferMin > goal`, set `goal = id + goalBufferMax` and resume a
live encoder. Then the proactive restart: when fewer than
`restartThreshold` chunks in the look-ahead window are done and no encoder
is live, set the goal and spawn an encoder at `id`. (The source spawns
demanding content synchronously and other content through a goroutine that
re-checks `coder == nil`; under the sequential semantics of this embedding
the re-check succeeds, so both paths restart.) -/
def checkGoal (p : Probe) (c : Config) (st : StreamState) (id : Int) :
    StreamState × CheckGoalOut :=
  let gmin := (effGoalBuffers p c).1
  let gmax := (effGoalBuffers p c).2
  let st1 := if id + gmin > st.goal then { st with goal := id + gmax } else st
  let resumed := decide (id + gmin > st.goal) && st1.coder.isSome
  if chunksAhead st1.chunks id gmax < restartThreshold p gmax ∧ st1.coder = none then
    (transcode { st1 with goal := id + gmax } id,
     ⟨resumed, some id⟩)
  else
    (st1, ⟨resumed, none⟩)

/-- Lower bound of the look-behind loop of `Stream.ServeChunk`
(line 197): the loop visits `i = id−1, id−2, …` while
`i > id − LookBehind && i >= 0`. -/
def behindLo (id lookBehind : Int) : Int :=
  if id - lookBehind + 1 < 0 then 0 else id - lookBehind + 1

/-- The indices visited by the look-behind loop, in loop order
(descending from `id − 1`). -/
def behindRange (id lookBehind : Int) : List Int :=
  (List.range (id - behindLo id lookBehind).toNat).map
    (fun (k : Nat) => id - 1 - (k : Int))

/-- `foundBehind` of `Stream.ServeChunk` (lines 196-201): whether some
chunk exists in the look-behind window. -/
def foundBehind (chunks : List Chunk) (id lookBehind : Int) : Bool :=
  (behindRange id lookBehind).any (fun i => (lookupChunk chunks i).isSome)

/-- Which branch `Stream.ServeChunk` took: serve a done chunk from disk,
wait on an existing pending chunk, create a placeholder and wait
(near-hit), or restart the encoder at `id` (miss). -/
inductive ServeAction
  | served
  | waitPending
  | waitNearHit
  | restartMiss
deriving DecidableEq, Repr

/-- `Stream.ServeChunk` (lines 175-214) up to its blocking wait: zero the
inactivity counter, run `checkGoal`, then select the branch. The near-hit
branch creates the placeholder; the miss branch is `restartAtChunk`
(line 401): clear the stream, create the placeholder, set
`goal = id + GoalBufferMax` (the raw configured value) and spawn an
encoder at `id`. The blocking wait itself is modelled by
`waitForChunkRegister`/`waitForChunkWake`. -/
def ServeChunk (p : Probe) (c : Config) (st : StreamState)
    (disk : List SegFile) (id : Int) :
    StreamState × List SegFile × ServeAction :=
  let st := { st with inactive := 0 }
  let st := (checkGoal p c st id).1
  match lookupChunk st.chunks id with
  | some ch =>
    if ch.done then (st, disk, ServeAction.served)
    else (st, disk, ServeAction.waitPending)
  | none =>
    if foundBehind st.chunks id c.lookBehind then
      ({ st with chunks := (createChunk st.chunks id).1 }, disk,
       ServeAction.waitNearHit)
    else
      let cleared := clearStream st disk
      let st1 := cleared.1
      let st2 := { st1 with
        chunks := (createChunk st1.chunks id).1
        goal := id + c.goalBufferMax }
      (transcode st2 id, cleared.2, ServeAction.restartMiss)

/-! Configurations and states reused by concrete witnesses below. -/

/-- A plain configuration: 3-second chunks, defaults as in the spec's
end-to-end scenarios (D=3, goalMin=3, goalMax=12, L=8), TS segments. -/
def cfg0 : Config :=
  { chunkSize := 3, lookBehind := 8, goalBufferMin := 3, goalBufferMax := 12,
    streamIdleTime := 120, enableFMP4 := false, forceCompatibility := false,
    lowBandwidthMode := false }

/-- The same configuration with fMP4 segments enabled. -/
def cfgFMP4 : Config := { cfg0 with enableFMP4 := true }

/-- An undemanding probe (bitrate and framerate below every adaptive
threshold). -/
def probe0 : Probe := { bitRate := 5000000, frameRate := 30 }

/-- C4. Pruning a chunk removes the in-memory entry but only the `.ts`
file on disk: when the encoder is configured to write `.mp4` segments
(fMP4 enabled), the on-disk segment of a pruned id survives, violating the
claimed invariant that no file with a pruned id exists on disk. Evaluated
at the failing input: fMP4 configuration, chunk 5 produced as
`<quality>-000005.mp4`, then pruned. -/
theorem pruneChunk_leaves_mp4_file :
    segmentExtFor cfgFMP4 = SegExt.mp4 ∧
    pruneChunk [⟨5, true, []⟩] [((5 : Int), SegExt.mp4)] 5 =
      ([], [((5 : Int), SegExt.mp4)]) := by
  constructor
  · rfl
  · rfl

/-- C2 counterexample. At `startId = 2` with chunk size 3, the spawned
encoder receives `-start_number 1`, not `-start_number 2` as claimed: the
source decrements the start id before emitting both the seek position and
`-start_number`. -/
theorem transcode_startNumber_counterexample :
    (transcodeInvocation 3 2).startNumber = 1 ∧
    ¬ (transcodeInvocation 3 2).startNumber = 2 := by
  constructor
  · rfl
  · decide

/-- C2 amended. For a restart at chunk id `startId ≥ 0` with chunk size
`D ≥ 0`, the spawned encoder receives `-start_number` equal to
`max (startId − 1) 0` (that is, `startId − 1` for positive start ids, `0`
at `startId = 0`), and the seek position passed to the encoder collaborator
is `max (startId − 1) 0 · D` seconds — in particular never negative, and
`0` when `startId = 0`. -/
theorem transcode_invocation_start (D startId : Int)
    (hs : 0 ≤ startId) (hD : 0 ≤ D) :
    (transcodeInvocation D startId).startNumber = max (startId - 1) 0 ∧
    (transcodeInvocation D startId).startAt = max (startId - 1) 0 * D ∧
    0 ≤ (transcodeInvocation D startId).startAt := by
  unfold transcodeInvocation
  by_cases h : startId > 0
  · simp only [if_pos h]
    have hm : max (startId - 1) 0 = startId - 1 := by omega
    refine ⟨by rw [hm], by rw [hm], ?_⟩
    exact mul_nonneg (by omega) hD
  · simp only [if_neg h]
    have h0 : startId = 0 := by omega
    subst h0
    norm_num

/-- C2 witness: the amended statement evaluated at `D = 3`, `startId = 0`
(the boundary case B1) — start number 0 and seek position 0. -/
theorem transcode_invocation_start_witness :
    (transcodeInvocation 3 0).startNumber = max ((0 : Int) - 1) 0 ∧
    (transcodeInvocation 3 0).startAt = max ((0 : Int) - 1) 0 * 3 ∧
    (0 : Int) ≤ (transcodeInvocation 3 0).startAt :=
  transcode_invocation_start 3 0 (by decide) (by decide)

/-! Shared facts about `checkGoal` and the look-behind window. -/

theorem ite_cap_le_25 (x : Int) : (if x > 25 then 25 else x) ≤ 25 := by
  split_ifs with h <;> omega

theorem effGoalBufferMax_le_25 (p : Probe) (c : Config) :
    (effGoalBuffers p c).2 ≤ 25 := by
  unfold effGoalBuffers
  dsimp only
  exact ite_cap_le_25 _

theorem checkGoal_preserves (p : Probe) (c : Config) (st : StreamState)
    (id : Int) :
    (checkGoal p c st id).1.chunks = st.chunks ∧
    (checkGoal p c st id).1.seenChunks = st.seenChunks ∧
    (checkGoal p c st id).1.inactive = st.inactive := by
  unfold checkGoal transcode
  dsimp only
  split_ifs <;> exact ⟨rfl, rfl, rfl⟩

theorem checkGoal_restart (p : Probe) (c : Config) (st : StreamState)
    (id : Int) (hc : st.coder = none)
    (hb : chunksAhead st.chunks id (effGoalBuffers p c).2 <
          restartThreshold p (effGoalBuffers p c).2) :
    (checkGoal p c st id).1.goal = id + (effGoalBuffers p c).2 ∧
    (checkGoal p c st id).1.coder = some ⟨st.nextTok, id⟩ ∧
    (checkGoal p c st id).1.nextTok = st.nextTok + 1 ∧
    (checkGoal p c st id).2.restartedAt = some id := by
  unfold checkGoal transcode
  dsimp only
  by_cases hadv : id + (effGoalBuffers p c).1 > st.goal
  · rw [if_pos hadv, if_pos ⟨hb, hc⟩]
    exact ⟨rfl, rfl, rfl, rfl⟩
  · rw [if_neg hadv, if_pos ⟨hb, hc⟩]
    exact ⟨rfl, rfl, rfl, rfl⟩

/-- C6. On `ServeChunk(id)` the first step is `checkGoal`: whenever
`id + goalBufferMin > goal` (with the effective, scaled buffers), the goal
is set to `id + goalBufferMax` and SIGCONT is sent exactly when an encoder
exists; moreover the effective `goalBufferMax`, after any adaptive scaling,
never exceeds the absolute cap of 25. -/
theorem checkGoal_advances_goal_and_resumes (p : Probe) (c : Config)
    (st : StreamState) (id : Int)
    (h : id + (effGoalBuffers p c).1 > st.goal) :
    (checkGoal p c st id).1.goal = id + (effGoalBuffers p c).2 ∧
    (checkGoal p c st id).2.resumed = st.coder.isSome ∧
    (effGoalBuffers p c).2 ≤ 25 := by
  refine ⟨?_, ?_, effGoalBufferMax_le_25 p c⟩
  · unfold checkGoal transcode
    dsimp only
    rw [if_pos h]
    split_ifs <;> rfl
  · unfold checkGoal transcode
    dsimp only
    rw [if_pos h]
    split_ifs with hres
    · have hnone : st.coder = none := hres.2
      rw [hnone]
      simp
    · simp [decide_eq_true h]

/-- C6 witness: a stream at goal 0 with a live (paused) encoder receiving
`ServeChunk(0)` under the default configuration — goal becomes 12, the
resume signal is sent, and the effective max is within the cap. -/
def stW : StreamState :=
  { chunks := [], seenChunks := [], goal := 0, coder := some ⟨0, 0⟩,
    inactive := 0, nextTok := 1 }

theorem checkGoal_advances_goal_and_resumes_witness :
    (checkGoal probe0 cfg0 stW 0).1.goal = 0 + (effGoalBuffers probe0 cfg0).2 ∧
    (checkGoal probe0 cfg0 stW 0).2.resumed = stW.coder.isSome ∧
    (effGoalBuffers probe0 cfg0).2 ≤ 25 :=
  checkGoal_advances_goal_and_resumes probe0 cfg0 stW 0 (by decide)

/-- C9. `ServeChunk(id)` on an already-done chunk is not effect-free
beyond zeroing the inactivity counter: when no encoder is live and fewer
than `restartThreshold` chunks of `[id, id + goalBufferMax]` are done,
`checkGoal` sets `goal = id + goalBufferMax` and spawns a fresh encoder
starting at `id`, even though the requested chunk itself is served from
disk. -/
theorem ServeChunk_done_chunk_proactive_restart (p : Probe) (c : Config)
    (st : StreamState) (disk : List SegFile) (id : Int) (ch : Chunk)
    (hlk : lookupChunk st.chunks id = some ch) (hdone : ch.done = true)
    (hc : st.coder = none)
    (hb : chunksAhead st.chunks id (effGoalBuffers p c).2 <
          restartThreshold p (effGoalBuffers p c).2) :
    (ServeChunk p c st disk id).2.2 = ServeAction.served ∧
    (ServeChunk p c st disk id).1.coder = some ⟨st.nextTok, id⟩ ∧
    (ServeChunk p c st disk id).1.goal = id + (effGoalBuffers p c).2 ∧
    (ServeChunk p c st disk id).1.inactive = 0 ∧
    (ServeChunk p c st disk id).2.1 = disk := by
  have hc0 : ({ st with inactive := 0 } : StreamState).coder = none := hc
  have hb0 : chunksAhead ({ st with inactive := 0 } : StreamState).chunks id
      (effGoalBuffers p c).2 < restartThreshold p (effGoalBuffers p c).2 := hb
  have hres := checkGoal_restart p c { st with inactive := 0 } id hc0 hb0
  have hpre := checkGoal_preserves p c { st with inactive := 0 } id
  have hlk0 : lookupChunk
      (checkGoal p c { st with inactive := 0 } id).1.chunks id = some ch := by
    rw [hpre.1]; exact hlk
  simp only [ServeChunk, hlk0, hdone, if_true]
  exact ⟨trivial, hres.2.1, hres.1, hpre.2.2, trivial⟩

/-- C9 witness: a stream whose chunk 4 is done on disk, with no live
encoder and nothing else buffered — `ServeChunk(4)` serves from disk yet
spawns an encoder with start id 4 and goal 16. -/
def st9 : StreamState :=
  { chunks := [⟨4, true, []⟩], seenChunks := [4], goal := 0, coder := none,
    inactive := 3, nextTok := 2 }

theorem ServeChunk_done_chunk_proactive_restart_witness :
    (ServeChunk probe0 cfg0 st9 [((4 : Int), SegExt.ts)] 4).2.2 =
      ServeAction.served ∧
    (ServeChunk probe0 cfg0 st9 [((4 : Int), SegExt.ts)] 4).1.coder =
      some ⟨st9.nextTok, 4⟩ ∧
    (ServeChunk probe0 cfg0 st9 [((4 : Int), SegExt.ts)] 4).1.goal =
      4 + (effGoalBuffers probe0 cfg0).2 ∧
    (ServeChunk probe0 cfg0 st9 [((4 : Int), SegExt.ts)] 4).1.inactive = 0 ∧
    (ServeChunk probe0 cfg0 st9 [((4 : Int), SegExt.ts)] 4).2.1 =
      [((4 : Int), SegExt.ts)] :=
  ServeChunk_done_chunk_proactive_restart probe0 cfg0 st9 _ 4 ⟨4, true, []⟩
    (by decide) (by decide) (by decide) (by decide)

/-- Outcome of a `ServeChunk` request that went through `waitForChunk`:
serve the file, HTTP 409 Conflict, or HTTP 408 Request Timeout. -/
inductive ServeResult
  | served
  | conflict
  | timeout
deriving DecidableEq, Repr

/-- HTTP status written for each wait outcome (`w.WriteHeader` with
`http.StatusConflict` / `http.StatusRequestTimeout`; a served chunk is
streamed with implicit 200). -/
def httpStatus : ServeResult → Nat
  | ServeResult.served => 200
  | ServeResult.conflict => 409
  | ServeResult.timeout => 408

/-- The wait deadline of `Stream.waitForChunk`:
`time.NewTimer(30 * time.Second)` (stream.go line 364). -/
def waitTimeoutSeconds : Nat := 30

/-- Update the chunk with key `id` in place (the Go code mutates the
chunk through its pointer while holding the lock). -/
def updateChunk (chunks : List Chunk) (id : Int) (g : Chunk → Chunk) :
    List Chunk :=
  chunks.map (fun ch => if ch.id = id then g ch else ch)

/-- Appending the own one-shot channel to a chunk's waiter list
(`chunk.notifs = append(chunk.notifs, notif)`). -/
def registerWaiter (ch : Chunk) (tok : Nat) : Chunk :=
  { ch with notifs := ch.notifs ++ [tok] }

/-- Removing the own channel from a chunk's waiter list after waking
(stream.go lines 377-383 remove the first matching channel). -/
def removeOwnWaiter (ch : Chunk) (tok : Nat) : Chunk :=
  { ch with notifs := ch.notifs.erase tok }

/-- Setting the done flag (`chunk.done = true`). -/
def markChunkDone (ch : Chunk) : Chunk :=
  { ch with done := true }

theorem lookupChunk_updateChunk (g : Chunk → Chunk)
    (hg : ∀ ch, (g ch).id = ch.id) (chunks : List Chunk) (id : Int) :
    lookupChunk (updateChunk chunks id g) id =
      (lookupChunk chunks id).map g := by
  induction chunks with
  | nil => rfl
  | cons ch rest ih =>
    unfold updateChunk at ih ⊢
    simp only [List.map_cons]
    by_cases h : ch.id = id
    · rw [if_pos h]
      unfold lookupChunk
      rw [if_pos (show (g ch).id = id by rw [hg ch]; exact h), if_pos h]
      rfl
    · rw [if_neg h]
      unfold lookupChunk
      rw [if_neg h, if_neg h]
      exact ih

/-- First half of `Stream.waitForChunk` (lines 361-367): register a fresh
one-shot channel on the chunk and capture the current encoder pointer,
then release the lock and block. -/
def waitForChunkRegister (st : StreamState) (id : Int) (tok : Nat) :
    StreamState × Option Coder :=
  ({ st with chunks := updateChunk st.chunks id (fun ch => registerWaiter ch tok) },
   st.coder)

/-- The done flag the woken waiter re-checks under the lock (the Go code
reads `done` through the captured chunk pointer; for a chunk still in the
table — the only case the claims touch — that is the table entry's flag,
which is how it is modelled here). -/
def chunkDoneAtWake (st : StreamState) (id : Int) : Bool :=
  match lookupChunk st.chunks id with
  | some ch => ch.done
  | none => false

/-- Second half of `Stream.waitForChunk` (lines 375-399): after waking
(by a signal or by the 30-second timer), re-acquire the lock, remove the
own channel, then: serve if the chunk is done; HTTP 409 if the captured
encoder pointer no longer equals the current one; HTTP 408 otherwise. -/
def waitForChunkWake (st : StreamState) (id : Int) (tok : Nat)
    (coderAtRegister : Option Coder) : StreamState × ServeResult :=
  ({ st with chunks := updateChunk st.chunks id (fun ch => removeOwnWaiter ch tok) },
   if chunkDoneAtWake st id then ServeResult.served
   else if coderAtRegister ≠ st.coder then ServeResult.conflict
   else ServeResult.timeout)

/-- A woken waiter whose chunk is still pending and whose captured encoder
pointer equals the current one falls through to the timeout response
(the final `w.WriteHeader(http.StatusRequestTimeout)` of `waitForChunk`). -/
theorem wake_timeout_of_pending (st : StreamState) (id : Int) (tok : Nat)
    (ch : Chunk)
    (hlk : lookupChunk st.chunks id = some ch) (hdone : ch.done = false) :
    (waitForChunkWake st id tok st.coder).2 = ServeResult.timeout := by
  have hd : chunkDoneAtWake st id = false := by
    unfold chunkDoneAtWake
    rw [hlk]
    exact hdone
  unfold waitForChunkWake
  rw [hd]
  simp

/-- C8. A blocked `ServeChunk` wait is bounded by the 30-second timer; if
on wake the chunk is still not done and the encoder pointer is unchanged,
the result is HTTP 408, the encoder field is untouched (no teardown), and
the placeholder chunk is still in the chunk table (only the waiter's own
channel was removed). -/
theorem waitForChunk_timeout_behavior (st : StreamState) (id : Int)
    (tok : Nat) (ch : Chunk)
    (hlk : lookupChunk st.chunks id = some ch) (hdone : ch.done = false) :
    (waitForChunkWake st id tok st.coder).2 = ServeResult.timeout ∧
    httpStatus (waitForChunkWake st id tok st.coder).2 = 408 ∧
    (waitForChunkWake st id tok st.coder).1.coder = st.coder ∧
    lookupChunk (waitForChunkWake st id tok st.coder).1.chunks id =
      some (removeOwnWaiter ch tok) ∧
    (removeOwnWaiter ch tok).done = false ∧
    waitTimeoutSeconds = 30 := by
  have hres := wake_timeout_of_pending st id tok ch hlk hdone
  refine ⟨hres, by rw [hres]; rfl, rfl, ?_, hdone, rfl⟩
  show lookupChunk (updateChunk st.chunks id (fun ch => removeOwnWaiter ch tok)) id = _
  rw [lookupChunk_updateChunk (fun ch => removeOwnWaiter ch tok) (fun _ => rfl), hlk]
  rfl

/-- C8 witness: a pending chunk 4 with a single waiter 11, a live encoder,
and no completion before the timer — the wake path returns 408, keeps the
encoder, and keeps the (still pending) placeholder. -/
def stPend : StreamState :=
  { chunks := [⟨4, false, [11]⟩], seenChunks := [], goal := 16,
    coder := some ⟨0, 4⟩, inactive := 0, nextTok := 1 }

theorem waitForChunk_timeout_behavior_witness :
    (waitForChunkWake stPend 4 11 stPend.coder).2 = ServeResult.timeout ∧
    httpStatus (waitForChunkWake stPend 4 11 stPend.coder).2 = 408 ∧
    (waitForChunkWake stPend 4 11 stPend.coder).1.coder = stPend.coder ∧
    lookupChunk (waitForChunkWake stPend 4 11 stPend.coder).1.chunks 4 =
      some (removeOwnWaiter ⟨4, false, [11]⟩ 11) ∧
    (removeOwnWaiter ⟨4, false, [11]⟩ 11).done = false ∧
    waitTimeoutSeconds = 30 :=
  waitForChunk_timeout_behavior stPend 4 11 ⟨4, false, [11]⟩
    (by decide) (by decide)

/-- Signals emitted by one iteration of the stdout scanner
`monitorTranscodeOutput`: the waiter channels sent a value, and whether
SIGSTOP was sent to the encoder (goal satisfied). -/
structure AnnounceOut where
  signals : List Nat
  paused : Bool
deriving DecidableEq, Repr

/-- The lock-held closure of `Stream.monitorTranscodeOutput`
(lines 881-905): discard if the encoder changed, create-or-fetch the
chunk; if it is not yet done, mark it done and send one value on each
registered waiter channel — the source does *not* clear `chunk.notifs` —
and send SIGSTOP when `id ≥ goal`. -/
def announceChunkLocked (st : StreamState) (k : Coder) (id : Int) :
    StreamState × AnnounceOut :=
  if st.coder = some k then
    if (createChunk st.chunks id).2.done then
      ({ st with chunks := (createChunk st.chunks id).1 }, ⟨[], false⟩)
    else
      ({ st with chunks := updateChunk (createChunk st.chunks id).1 id markChunkDone },
       ⟨(createChunk st.chunks id).2.notifs, decide (id ≥ st.goal)⟩)
  else (st, ⟨[], false⟩)

/-- One segment announcement handled by `Stream.monitorTranscodeOutput`
(lines 865-906), for the scanner of encoder epoch `k` announcing id `id`:
dedup through `seenChunks`, then the lock-held section. -/
def monitorTranscodeOutput (st : StreamState) (k : Coder) (id : Int) :
    StreamState × AnnounceOut :=
  if st.seenChunks.contains id then (st, ⟨[], false⟩)
  else announceChunkLocked { st with seenChunks := st.seenChunks ++ [id] } k id

theorem announceChunkLocked_marks_done (st : StreamState) (k : Coder)
    (id : Int) (ws : List Nat)
    (hcoder : st.coder = some k)
    (hlk : lookupChunk st.chunks id = some ⟨id, false, ws⟩) :
    announceChunkLocked st k id =
      ({ st with chunks := updateChunk st.chunks id markChunkDone },
       ⟨ws, decide (id ≥ st.goal)⟩) := by
  have hcr : createChunk st.chunks id = (st.chunks, ⟨id, false, ws⟩) := by
    unfold createChunk
    rw [hlk]
  unfold announceChunkLocked
  rw [if_pos hcoder, hcr]
  rfl

/-- C5 counterexample. Marking chunk 3 done sends one value on its single
waiter channel 7 but does not clear the waiter list: after the
announcement the chunk still carries `notifs = [7]`, so the claim that the
Stream "clears the waiter list" is false at this input. -/
def stAnn : StreamState :=
  { chunks := [⟨3, false, [7]⟩], seenChunks := [], goal := 12,
    coder := some ⟨0, 0⟩, inactive := 0, nextTok := 1 }

theorem announce_waiters_not_cleared :
    (monitorTranscodeOutput stAnn ⟨0, 0⟩ 3).2.signals = [7] ∧
    lookupChunk (monitorTranscodeOutput stAnn ⟨0, 0⟩ 3).1.chunks 3 =
      some ⟨3, true, [7]⟩ ∧
    ¬ ([7] : List Nat) = [] := by
  refine ⟨rfl, rfl, by decide⟩

/-- C5 amended. When a chunk's `done` flag transitions false→true — on an
encoder stdout announcement for an id not yet seen, in the current
epoch — the Stream sends exactly one value on each registered waiter
channel (the emitted signal list is exactly the registered list), but
leaves the waiter list in place: each waiter removes its own channel on
wake, and the `done` guard prevents any further send for that chunk. -/
theorem announce_notifies_each_waiter_once (st : StreamState) (k : Coder)
    (id : Int) (ws : List Nat)
    (hseen : st.seenChunks.contains id = false)
    (hcoder : st.coder = some k)
    (hlk : lookupChunk st.chunks id = some ⟨id, false, ws⟩) :
    (monitorTranscodeOutput st k id).2.signals = ws ∧
    lookupChunk (monitorTranscodeOutput st k id).1.chunks id =
      some ⟨id, true, ws⟩ ∧
    ((monitorTranscodeOutput
        (monitorTranscodeOutput st k id).1 k id).2.signals = []) := by
  have hc2 : ({ st with seenChunks := st.seenChunks ++ [id] }
      : StreamState).coder = some k := hcoder
  have hlk1 : lookupChunk ({ st with seenChunks := st.seenChunks ++ [id] }
      : StreamState).chunks id = some ⟨id, false, ws⟩ := hlk
  have hstep : monitorTranscodeOutput st k id =
      ({ st with
          seenChunks := st.seenChunks ++ [id]
          chunks := updateChunk st.chunks id markChunkDone },
       ⟨ws, decide (id ≥ st.goal)⟩) := by
    unfold monitorTranscodeOutput
    rw [hseen]
    show announceChunkLocked { st with seenChunks := st.seenChunks ++ [id] } k id = _
    rw [announceChunkLocked_marks_done _ k id ws hc2 hlk1]
  have hlk2 : lookupChunk (updateChunk st.chunks id markChunkDone) id =
      some ⟨id, true, ws⟩ := by
    rw [lookupChunk_updateChunk markChunkDone (fun _ => rfl), hlk]
    rfl
  have hseen2 : ((st.seenChunks ++ [id]).contains id) = true := by
    simp [List.contains_eq_any_beq]
  refine ⟨by rw [hstep], by rw [hstep]; exact hlk2, ?_⟩
  rw [hstep]
  unfold monitorTranscodeOutput
  rw [hseen2]
  rfl

/-- C5 witness: the amended statement at the concrete pending chunk 3 with
waiter 7 — signals `[7]`, the chunk becomes done with its list intact, and
a duplicate announcement sends nothing. -/
theorem announce_notifies_each_waiter_once_witness :
    (monitorTranscodeOutput stAnn ⟨0, 0⟩ 3).2.signals = [7] ∧
    lookupChunk (monitorTranscodeOutput stAnn ⟨0, 0⟩ 3).1.chunks 3 =
      some ⟨3, true, [7]⟩ ∧
    ((monitorTranscodeOutput
        (monitorTranscodeOutput stAnn ⟨0, 0⟩ 3).1 ⟨0, 0⟩ 3).2.signals = []) :=
  announce_notifies_each_waiter_once stAnn ⟨0, 0⟩ 3 [7]
    (by decide) (by decide) (by decide)

/-- All registered waiter channels of all chunks. Go iterates the chunk
map in unspecified order; the embedding uses table order (the claims are
about which channels are signalled, not about an order). -/
def allWaiters (chunks : List Chunk) : List Nat :=
  (chunks.map Chunk.notifs).flatten

/-- `Stream.monitorExit` (lines 929-952), the lock-held part after the
encoder process of epoch `k` has been reaped with `exitcode`: when the
exit code is positive and the encoder is still the current one, send one
value on every outstanding waiter channel of every chunk. Nothing else is
changed — in particular `s.coder` is left pointing at the exited process. -/
def monitorExit (st : StreamState) (k : Coder) (exitcode : Int) :
    StreamState × List Nat :=
  if 0 < exitcode ∧ st.coder = some k then (st, allWaiters st.chunks)
  else (st, [])

/-- C1 counterexample. Encoder epoch `⟨0,0⟩` exits with status 1 while
chunk 3 is pending with waiter 7: the waiter is notified, but the stream
state is unchanged — the encoder pointer still equals the captured one and
is not `none` — so the woken waiter surfaces HTTP 408 (timeout), not the
claimed HTTP 409 (conflict), and the stream has not returned to Idle. -/
theorem monitorExit_claim_counterexample :
    (monitorExit stAnn ⟨0, 0⟩ 1).2 = [7] ∧
    ¬ (monitorExit stAnn ⟨0, 0⟩ 1).1.coder = none ∧
    (waitForChunkWake (monitorExit stAnn ⟨0, 0⟩ 1).1 3 7 (some ⟨0, 0⟩)).2 =
      ServeResult.timeout ∧
    ¬ (waitForChunkWake (monitorExit stAnn ⟨0, 0⟩ 1).1 3 7 (some ⟨0, 0⟩)).2 =
      ServeResult.conflict := by
  refine ⟨rfl, by decide, rfl, by decide⟩

/-- C1 amended. When the encoder exits with non-zero (positive) status and
is still the current one, every outstanding waiter is notified so its wait
returns; but the stream state is left unchanged — the encoder pointer is
neither cleared nor replaced, so the stream does not return to Idle — and a
woken waiter of a still-pending chunk observes `done=false` with an
*unchanged* encoder pointer and therefore surfaces as HTTP 408 (timeout),
not 409. The dead encoder is only cleared by a later restart, `Stop()`, or
idle teardown. -/
theorem monitorExit_nonzero_behavior (st : StreamState) (k : Coder)
    (ec : Int) (hec : 0 < ec) (hk : st.coder = some k) :
    (monitorExit st k ec).2 = allWaiters st.chunks ∧
    (monitorExit st k ec).1 = st ∧
    (monitorExit st k ec).1.coder = some k ∧
    (∀ id tok ch, lookupChunk st.chunks id = some ch → ch.done = false →
      httpStatus (waitForChunkWake (monitorExit st k ec).1 id tok
        (some k)).2 = 408) := by
  have hme : monitorExit st k ec = (st, allWaiters st.chunks) := by
    unfold monitorExit
    rw [if_pos ⟨hec, hk⟩]
  refine ⟨by rw [hme], by rw [hme], by rw [hme]; exact hk, ?_⟩
  intro id tok ch hlk hdone
  rw [hme]
  have := wake_timeout_of_pending st id tok ch hlk hdone
  rw [hk] at this
  rw [this]
  rfl

/-- C1 witness: the amended statement evaluated at the concrete state
`stAnn` (pending chunk 3 with waiter 7, encoder `⟨0,0⟩`) and exit code 1. -/
theorem monitorExit_nonzero_behavior_witness :
    (monitorExit stAnn ⟨0, 0⟩ 1).2 = allWaiters stAnn.chunks ∧
    (monitorExit stAnn ⟨0, 0⟩ 1).1 = stAnn ∧
    (monitorExit stAnn ⟨0, 0⟩ 1).1.coder = some ⟨0, 0⟩ ∧
    httpStatus (waitForChunkWake (monitorExit stAnn ⟨0, 0⟩ 1).1 3 7
      (some ⟨0, 0⟩)).2 = 408 := by
  have h := monitorExit_nonzero_behavior stAnn ⟨0, 0⟩ 1 (by decide) (by decide)
  exact ⟨h.1, h.2.1, h.2.2.1,
    h.2.2.2 3 7 ⟨3, false, [7]⟩ (by decide) (by decide)⟩

theorem mem_behindRange {id L i : Int} :
    i ∈ behindRange id L ↔ behindLo id L ≤ i ∧ i ≤ id - 1 := by
  unfold behindRange
  constructor
  · intro hm
    rcases List.mem_map.1 hm with ⟨k, hkr, rfl⟩
    rw [List.mem_range] at hkr
    unfold behindLo at hkr ⊢
    constructor <;> split_ifs at hkr ⊢ <;> omega
  · rintro ⟨h1, h2⟩
    unfold behindLo at h1
    refine List.mem_map.2 ⟨(id - 1 - i).toNat, List.mem_range.2 ?_, ?_⟩
    · unfold behindLo
      split_ifs at h1 ⊢ <;> omega
    · split_ifs at h1 <;> omega

theorem foundBehind_iff {chunks : List Chunk} {id L : Int} :
    foundBehind chunks id L = true ↔
      ∃ i, id - L < i ∧ i < id ∧ 0 ≤ i ∧
        (lookupChunk chunks i).isSome = true := by
  unfold foundBehind
  rw [List.any_eq_true]
  constructor
  · rintro ⟨i, hm, hs⟩
    rw [mem_behindRange] at hm
    unfold behindLo at hm
    refine ⟨i, ?_, ?_, ?_, hs⟩ <;> split_ifs at hm <;> omega
  · rintro ⟨i, h1, h2, h3, hs⟩
    refine ⟨i, mem_behindRange.2 ?_, hs⟩
    unfold behindLo
    split_ifs <;> omega

/-- The near-hit condition as the claim words it (following the spec, for
comparison with the source's branch condition): no chunk at `id`, some
chunk with id in `[id−L, id)`, and an encoder exists. -/
def nearHitSpecClaim (st : StreamState) (c : Config) (id : Int) : Prop :=
  lookupChunk st.chunks id = none ∧
  (∃ i, id - c.lookBehind ≤ i ∧ i < id ∧
    (lookupChunk st.chunks i).isSome = true) ∧
  st.coder.isSome = true

/-- A stream whose only chunk is 0 (done) with a live encoder. -/
def st3 : StreamState :=
  { chunks := [⟨0, true, []⟩], seenChunks := [0], goal := 0,
    coder := some ⟨0, 0⟩, inactive := 0, nextTok := 1 }

/-- A stream whose only chunk is 7 (pending) with no encoder. -/
def st3b : StreamState :=
  { chunks := [⟨7, false, []⟩], seenChunks := [], goal := 0,
    coder := none, inactive := 0, nextTok := 1 }

/-- C3 counterexample, both directions of the claimed equivalence. With
look-behind L = 8 and a chunk at 0, `ServeChunk(8)` takes the miss branch
although the claimed condition holds (0 lies in the claimed window
`[8−8, 8)`, and an encoder exists): the source loop scans only
`(id−L, id)`, excluding `id−L`. Conversely with a pending chunk at 7 and
no encoder, `ServeChunk(8)` takes the near-hit branch although the claimed
condition fails: the source never tests encoder existence. -/
theorem ServeChunk_nearHit_counterexample :
    (nearHitSpecClaim st3 cfg0 8 ∧
      ¬ (ServeChunk probe0 cfg0 st3 [] 8).2.2 = ServeAction.waitNearHit) ∧
    (¬ nearHitSpecClaim st3b cfg0 8 ∧
      (ServeChunk probe0 cfg0 st3b [] 8).2.2 = ServeAction.waitNearHit) := by
  refine ⟨⟨⟨by decide, ⟨0, by decide, by decide, by decide⟩, by decide⟩,
    by decide⟩, ⟨?_, by decide⟩⟩
  rintro ⟨-, -, hc⟩
  exact absurd hc (by decide)

/-- C3 amended. `ServeChunk(id)` takes the near-hit branch exactly when no
chunk at `id` exists and some chunk with id in the *open* window
`(id−L, id)` (intersected with the non-negative ids) exists — whether or
not an encoder exists; the source's loop excludes `id−L` itself and never
consults the encoder field. -/
theorem ServeChunk_nearHit_iff (p : Probe) (c : Config) (st : StreamState)
    (disk : List SegFile) (id : Int) :
    (ServeChunk p c st disk id).2.2 = ServeAction.waitNearHit ↔
      lookupChunk st.chunks id = none ∧
      ∃ i, id - c.lookBehind < i ∧ i < id ∧ 0 ≤ i ∧
        (lookupChunk st.chunks i).isSome = true := by
  have hpre := (checkGoal_preserves p c { st with inactive := 0 } id).1
  have key : (ServeChunk p c st disk id).2.2 = ServeAction.waitNearHit ↔
      (lookupChunk st.chunks id = none ∧
       foundBehind st.chunks id c.lookBehind = true) := by
    rcases hcase : lookupChunk st.chunks id with _ | ch
    · have hl : lookupChunk
          (checkGoal p c { st with inactive := 0 } id).1.chunks id = none := by
        rw [hpre]; exact hcase
      simp only [ServeChunk, hpre]
      by_cases hfb : foundBehind st.chunks id c.lookBehind = true
      · simp [hcase, hfb]
      · simp [hcase, hfb]
    · have hl : lookupChunk
          (checkGoal p c { st with inactive := 0 } id).1.chunks id = some ch := by
        rw [hpre]; exact hcase
      simp only [ServeChunk, hl]
      by_cases hd : ch.done = true <;> simp [hd]
  rw [key, foundBehind_iff]

/-- Effects of one `Run`-loop event: the chunk ids pruned from the table
(each with its `.ts` file) and whether the stream was torn down
(`clear`). -/
structure RunEffects where
  pruned : List Int
  cleared : Bool
deriving DecidableEq, Repr

/-- State owned by one `Run` invocation: the stream and its disk, whether
the 5-second ticker is still live, and whether the loop has returned. -/
structure RunState where
  st : StreamState
  disk : List SegFile
  tickerActive : Bool
  returned : Bool
deriving DecidableEq, Repr

/-- Events the `Run` loop can observe: a ticker tick, the `Stop()` signal,
or an interleaved `ServeChunk` restart installing a new encoder
(resurrecting the stream — `ServeChunk` never touches the ticker). -/
inductive RunEvent
  | tick
  | stopSig
  | resurrect (k : Coder)
deriving DecidableEq, Repr

/-- One step of `Stream.Run` (lines 49-84). A tick is delivered only while
the ticker is live (`t.Stop()` makes `t.C` silent forever): prune every
chunk with `id < goal − GoalBufferMax` (the raw configured value),
increment `inactive`, and when `inactive ≥ StreamIdleTime/5` with a live
encoder, stop the ticker and `clear` the stream — the loop itself keeps
running. On `Stop()`: stop the ticker, `clear`, and return. The prune is
the net effect of iterating `pruneChunk` over the matching ids. -/
def runStep (c : Config) (rs : RunState) : RunEvent → RunState × RunEffects
  | RunEvent.tick =>
    if rs.returned ∨ rs.tickerActive = false then (rs, ⟨[], false⟩)
    else
      let bound := rs.st.goal - c.goalBufferMax
      let pruneIds :=
        (rs.st.chunks.filter (fun ch => decide (ch.id < bound))).map Chunk.id
      let chunks1 := rs.st.chunks.filter (fun ch => decide (¬ ch.id < bound))
      let disk1 := rs.disk.filter (fun f => decide (¬ (f.2 = SegExt.ts ∧
        f.1 < bound ∧ rs.st.chunks.any (fun ch => ch.id = f.1))))
      let st1 : StreamState := { rs.st with
        chunks := chunks1
        inactive := rs.st.inactive + 1 }
      if st1.inactive ≥ Int.tdiv c.streamIdleTime 5 ∧ ¬ st1.coder = none then
        let cleared := clearStream st1 disk1
        ({ rs with
            st := cleared.1
            disk := cleared.2
            tickerActive := false },
         ⟨pruneIds ++ st1.chunks.map Chunk.id, true⟩)
      else
        ({ rs with st := st1, disk := disk1 }, ⟨pruneIds, false⟩)
  | RunEvent.stopSig =>
    if rs.returned then (rs, ⟨[], false⟩)
    else
      let cleared := clearStream rs.st rs.disk
      ({ st := cleared.1, disk := cleared.2, tickerActive := false,
         returned := true },
       ⟨rs.st.chunks.map Chunk.id, true⟩)
  | RunEvent.resurrect k =>
    ({ rs with st := { rs.st with coder := some k } }, ⟨[], false⟩)

/-- A `Run` loop consuming a sequence of events, collecting the per-event
effects. -/
def runTrace (c : Config) : RunState → List RunEvent → RunState × List RunEffects
  | rs, [] => (rs, [])
  | rs, e :: es =>
    let step := runStep c rs e
    let rest := runTrace c step.1 es
    (rest.1, step.2 :: rest.2)

/-- C10. Once the idle-timeout branch of `Run` fires (a tick with
`inactive + 1 ≥ StreamIdleTime/5` and a live encoder), the 5-second ticker
is stopped (and the stream cleared to no encoder); and from any state with
a dead ticker, every subsequent event sequence without `Stop()` — ticks
and `ServeChunk` resurrections alike — produces no pruning and no teardown
whatsoever, and the ticker never becomes live again. -/
theorem run_ticker_dead_after_idle (c : Config) (rs : RunState)
    (evs : List RunEvent)
    (hact : rs.tickerActive = true) (hret : rs.returned = false)
    (hcoder : ¬ rs.st.coder = none)
    (hidle : Int.tdiv c.streamIdleTime 5 ≤ rs.st.inactive + 1) :
    (runStep c rs RunEvent.tick).1.tickerActive = false ∧
    (runStep c rs RunEvent.tick).2.cleared = true ∧
    (runStep c rs RunEvent.tick).1.st.coder = none ∧
    (∀ rs2 : RunState, rs2.tickerActive = false →
      (∀ e ∈ evs, ¬ e = RunEvent.stopSig) →
      ((runTrace c rs2 evs).2.all
          (fun eff => decide (eff = ⟨[], false⟩)) = true ∧
        (runTrace c rs2 evs).1.tickerActive = false)) := by
  have hfire : (runStep c rs RunEvent.tick).1.tickerActive = false ∧
      (runStep c rs RunEvent.tick).2.cleared = true ∧
      (runStep c rs RunEvent.tick).1.st.coder = none := by
    unfold runStep
    rw [if_neg (by simp [hact, hret])]
    rw [if_pos ⟨hidle, hcoder⟩]
    exact ⟨rfl, rfl, rfl⟩
  refine ⟨hfire.1, hfire.2.1, hfire.2.2, ?_⟩
  clear hact hret hcoder hidle
  induction evs with
  | nil =>
    intro rs2 h2 _
    exact ⟨rfl, h2⟩
  | cons e es ih =>
    intro rs2 h2 hnostop
    have heff : (runStep c rs2 e).2 = ⟨[], false⟩ ∧
        (runStep c rs2 e).1.tickerActive = false := by
      cases e with
      | tick =>
        have hid : runStep c rs2 RunEvent.tick = (rs2, ⟨[], false⟩) := by
          unfold runStep
          rw [if_pos (Or.inr h2)]
        rw [hid]
        exact ⟨rfl, h2⟩
      | stopSig =>
        exact absurd rfl (hnostop _ (List.mem_cons_self _ _))
      | resurrect k =>
        exact ⟨rfl, h2⟩
    have hrest := ih (runStep c rs2 e).1 heff.2
      (fun e2 he2 => hnostop e2 (List.mem_cons_of_mem _ he2))
    simp only [runTrace, List.all_cons]
    refine ⟨?_, hrest.2⟩
    rw [heff.1, hrest.1]
    simp

/-- C10 witness states. A stream one tick away from the idle timeout
(`StreamIdleTime = 120`, so the threshold is 24 ticks) with a live
encoder... -/
def rsIdle : RunState :=
  { st := { chunks := [⟨0, true, []⟩], seenChunks := [0], goal := 12,
            coder := some ⟨0, 0⟩, inactive := 23, nextTok := 1 },
    disk := [(0, SegExt.ts)], tickerActive := true, returned := false }

/-- ... and a stream whose ticker has already been stopped by the idle
branch. -/
def rsDead : RunState :=
  { st := st3b, disk := [], tickerActive := false, returned := false }

/-- The events after the ticker died: two silent ticks around a
`ServeChunk` resurrection. -/
def evs10 : List RunEvent :=
  [RunEvent.tick, RunEvent.resurrect ⟨9, 4⟩, RunEvent.tick]

theorem run_ticker_dead_after_idle_witness :
    (runStep cfg0 rsIdle RunEvent.tick).1.tickerActive = false ∧
    (runStep cfg0 rsIdle RunEvent.tick).2.cleared = true ∧
    (runStep cfg0 rsIdle RunEvent.tick).1.st.coder = none ∧
    ((runTrace cfg0 rsDead evs10).2.all
        (fun eff => decide (eff = ⟨[], false⟩)) = true ∧
      (runTrace cfg0 rsDead evs10).1.tickerActive = false) := by
  have h := run_ticker_dead_after_idle cfg0 rsIdle evs10 rfl rfl
    (by decide) (by decide)
  exact ⟨h.1, h.2.1, h.2.2.1, h.2.2.2 rsDead rfl (by decide)⟩

/-! The HTTP routing of `Manager.ServeHTTP` (manager source, lines
1339-1398), over Go strings modelled as character lists. -/

/-- Go strings (byte strings; the names involved are ASCII) as `List Char`. -/
abbrev GoStr := List Char

/-- `strings.HasSuffix`. -/
def hasSuffix (s sfx : GoStr) : Bool := decide (sfx <:+ s)

/-- `strings.TrimSuffix`: drop the suffix when present, else return the
string unchanged. -/
def trimSuffix (s sfx : GoStr) : GoStr :=
  if hasSuffix s sfx then s.take (s.length - sfx.length) else s

/-- `strings.Split(chunk, "-")`: split at every dash, keeping empty
parts. -/
def splitOnDash : GoStr → List GoStr
  | [] => [[]]
  | c :: cs =>
    match splitOnDash cs with
    | [] => [[c]]
    | h :: t => if c = '-' then [] :: h :: t else (c :: h) :: t

/-- The digit run of `strconv.Atoi` (no sign): error when empty or when a
non-digit occurs. Overflow of the 64-bit range is not modelled; the ids
involved are six-digit. -/
def atoiDigits (s : GoStr) : Option Nat :=
  if s = [] then none
  else if s.all Char.isDigit then
    some (s.foldl (fun a c2 => a * 10 + (c2.toNat - 48)) 0)
  else none

/-- `strconv.Atoi`: optional sign, then digits. -/
def atoi (s : GoStr) : Option Int :=
  match s with
  | '-' :: rest => (atoiDigits rest).map (fun n => -(n : Int))
  | '+' :: rest => (atoiDigits rest).map (fun n => (n : Int))
  | _ => (atoiDigits s).map (fun n => (n : Int))

def indexName : GoStr := "index.m3u8".toList
def m3u8Sfx : GoStr := ".m3u8".toList
def tsSfx : GoStr := ".ts".toList
def mp4Sfx : GoStr := ".mp4".toList
def qualityMax : GoStr := "max".toList

/-- The response `Manager.ServeHTTP` produces for a path component
`chunk`, as a routing decision (body emission is out of scope). -/
inductive HttpResponse
  | index
  | streamList (q : GoStr)
  | chunkServe (q : GoStr) (id : Int)
  | fullVideo (q : GoStr)
  | badRequest
  | notFound
deriving DecidableEq, Repr

/-- HTTP status of each routing decision (`http.StatusBadRequest`,
`http.StatusNotFound`; the serving branches write 200 on success). -/
def managerStatus : HttpResponse → Nat
  | HttpResponse.badRequest => 400
  | HttpResponse.notFound => 404
  | _ => 200

/-- `Manager.ServeHTTP`: master playlist for `index.m3u8`; media playlist
for a known `<q>.m3u8`; for a name ending in `.ts` or `.mp4`, split on the
dash into exactly two parts, parse the id, and serve the chunk when the
quality is known — malformed names get 400, an unknown quality falls
through; finally any remaining `.mp4` name is served as a full video,
falling back to the `max` stream when its quality is unknown; everything
else is 404. -/
def ServeHTTP (streams : List GoStr) (chunk : GoStr) : HttpResponse :=
  if chunk = indexName then HttpResponse.index
  else if hasSuffix chunk m3u8Sfx &&
      streams.contains (trimSuffix chunk m3u8Sfx) then
    HttpResponse.streamList (trimSuffix chunk m3u8Sfx)
  else
    let isChunk := hasSuffix chunk tsSfx || hasSuffix chunk mp4Sfx
    let chunkBlock : Option HttpResponse :=
      if isChunk then
        match splitOnDash chunk with
        | [q, rest] =>
          let idStr := if hasSuffix chunk tsSfx then trimSuffix rest tsSfx
                       else trimSuffix rest mp4Sfx
          match atoi idStr with
          | none => some HttpResponse.badRequest
          | some n =>
            if streams.contains q then some (HttpResponse.chunkServe q n)
            else none
        | _ => some HttpResponse.badRequest
      else none
    match chunkBlock with
    | some r => r
    | none =>
      if hasSuffix chunk mp4Sfx then
        if streams.contains (trimSuffix chunk mp4Sfx) then
          HttpResponse.fullVideo (trimSuffix chunk mp4Sfx)
        else HttpResponse.fullVideo qualityMax
      else HttpResponse.notFound

/-- The quality labels of the witness supervisor. -/
def streams0 : List GoStr := ["max".toList, "720p".toList]

/-- C7 counterexample. The segment request `foo-000001.mp4` names the
unknown quality `foo`, yet the response is not 404: the name falls through
the chunk block into the full-video branch and is served as the full video
of the `max` stream (status 200). -/
theorem ServeHTTP_unknown_mp4_counterexample :
    streams0.contains ("foo".toList) = false ∧
    ServeHTTP streams0 ("foo-000001.mp4".toList) =
      HttpResponse.fullVideo qualityMax ∧
    ¬ ServeHTTP streams0 ("foo-000001.mp4".toList) = HttpResponse.notFound ∧
    managerStatus (ServeHTTP streams0 ("foo-000001.mp4".toList)) = 200 := by
  refine ⟨by decide, by decide, by decide, by decide⟩

theorem suffix_total {α : Type} {l₁ l₂ l₃ : List α}
    (h1 : l₁ <:+ l₃) (h2 : l₂ <:+ l₃) : l₁ <:+ l₂ ∨ l₂ <:+ l₁ := by
  induction l₃ with
  | nil =>
    left
    rw [List.suffix_nil.1 h1, List.suffix_nil.1 h2]
  | cons a t ih =>
    rcases List.suffix_cons_iff.1 h1 with rfl | h1a
    · right
      exact h2
    · rcases List.suffix_cons_iff.1 h2 with rfl | h2a
      · left
        exact h1a.trans (List.suffix_cons a t)
      · exact ih h1a h2a

theorem hasSuffix_false_of_suffix {s sfx1 sfx2 : GoStr}
    (h : sfx1 <:+ s) (h12 : ¬ sfx2 <:+ sfx1) (h21 : ¬ sfx1 <:+ sfx2) :
    hasSuffix s sfx2 = false := by
  unfold hasSuffix
  apply decide_eq_false
  intro h2
  rcases suffix_total h2 h with h3 | h3
  · exact h12 h3
  · exact h21 h3

theorem hasSuffix_append (xs sfx : GoStr) :
    hasSuffix (xs ++ sfx) sfx = true :=
  decide_eq_true (List.suffix_append xs sfx)

theorem trimSuffix_append (xs sfx : GoStr) :
    trimSuffix (xs ++ sfx) sfx = xs := by
  unfold trimSuffix
  rw [hasSuffix_append]
  simp only [if_true, List.length_append, Nat.add_sub_cancel]
  exact List.take_left xs sfx

theorem splitOnDash_ne_nil : ∀ s : GoStr, ¬ splitOnDash s = []
  | [] => by simp [splitOnDash]
  | c :: cs => by
    unfold splitOnDash
    cases hsplit : splitOnDash cs with
    | nil => simp
    | cons h t => split_ifs <;> simp

theorem splitOnDash_no_dash {xs : GoStr} (h : '-' ∉ xs) :
    splitOnDash xs = [xs] := by
  induction xs with
  | nil => rfl
  | cons c cs ih =>
    have hc : ¬ c = '-' := fun hh => h (hh ▸ List.mem_cons_self c cs)
    have hcs : '-' ∉ cs := fun hh => h (List.mem_cons_of_mem _ hh)
    unfold splitOnDash
    rw [ih hcs]
    simp [hc]

theorem splitOnDash_append {xs : GoStr} (ys : GoStr) (h : '-' ∉ xs) :
    splitOnDash (xs ++ '-' :: ys) = xs :: splitOnDash ys := by
  induction xs with
  | nil =>
    show splitOnDash ('-' :: ys) = [] :: splitOnDash ys
    cases hsplit : splitOnDash ys with
    | nil => exact absurd hsplit (splitOnDash_ne_nil ys)
    | cons h2 t =>
      rw [splitOnDash, hsplit]
      simp
  | cons c cs ih =>
    have hc : ¬ c = '-' := fun hh => h (hh ▸ List.mem_cons_self c cs)
    have hcs : '-' ∉ cs := fun hh => h (List.mem_cons_of_mem _ hh)
    show splitOnDash (c :: (cs ++ '-' :: ys)) = (c :: cs) :: splitOnDash ys
    rw [splitOnDash, ih hcs]
    simp [hc]

theorem ne_indexName_of_ts {chunk : GoStr} (h : tsSfx <:+ chunk) :
    ¬ chunk = indexName := by
  rintro rfl
  rcases suffix_total h (show m3u8Sfx <:+ indexName by decide) with h2 | h2 <;>
    exact absurd h2 (by decide)

theorem ne_indexName_of_mp4 {chunk : GoStr} (h : mp4Sfx <:+ chunk) :
    ¬ chunk = indexName := by
  rintro rfl
  rcases suffix_total h (show m3u8Sfx <:+ indexName by decide) with h2 | h2 <;>
    exact absurd h2 (by decide)

theorem serveHTTP_unknown_m3u8 (streams : List GoStr) (q : GoStr)
    (hq : streams.contains q = false) (hqi : ¬ q = "index".toList) :
    ServeHTTP streams (q ++ m3u8Sfx) = HttpResponse.notFound := by
  have hsuf : m3u8Sfx <:+ q ++ m3u8Sfx := List.suffix_append q m3u8Sfx
  have hne : ¬ (q ++ m3u8Sfx) = indexName := by
    intro he
    apply hqi
    have he2 : q ++ m3u8Sfx = "index".toList ++ m3u8Sfx := by
      rw [he]
      decide
    exact List.append_cancel_right he2
  have hts : hasSuffix (q ++ m3u8Sfx) tsSfx = false :=
    hasSuffix_false_of_suffix hsuf (by decide) (by decide)
  have hmp4 : hasSuffix (q ++ m3u8Sfx) mp4Sfx = false :=
    hasSuffix_false_of_suffix hsuf (by decide) (by decide)
  have hqmem : ¬ q ∈ streams := by simpa using hq
  unfold ServeHTTP
  rw [if_neg hne]
  simp [trimSuffix_append, hqmem, hts, hmp4]

theorem serveHTTP_unknown_ts_segment (streams : List GoStr)
    (q ds : GoStr) (n : Int)
    (hq : streams.contains q = false)
    (hqd : '-' ∉ q) (hdd : '-' ∉ ds) (hatoi : atoi ds = some n) :
    ServeHTTP streams (q ++ '-' :: (ds ++ tsSfx)) = HttpResponse.notFound := by
  have hassoc : q ++ '-' :: (ds ++ tsSfx) = (q ++ '-' :: ds) ++ tsSfx := by
    simp
  have hsuf : tsSfx <:+ q ++ '-' :: (ds ++ tsSfx) := by
    rw [hassoc]
    exact List.suffix_append _ _
  have hne := ne_indexName_of_ts hsuf
  have hm3u8 : hasSuffix (q ++ '-' :: (ds ++ tsSfx)) m3u8Sfx = false :=
    hasSuffix_false_of_suffix hsuf (by decide) (by decide)
  have hmp4 : hasSuffix (q ++ '-' :: (ds ++ tsSfx)) mp4Sfx = false :=
    hasSuffix_false_of_suffix hsuf (by decide) (by decide)
  have hts : hasSuffix (q ++ '-' :: (ds ++ tsSfx)) tsSfx = true :=
    decide_eq_true hsuf
  have hddts : '-' ∉ ds ++ tsSfx := by
    intro hmem
    rcases List.mem_append.1 hmem with hmem | hmem
    · exact hdd hmem
    · exact absurd hmem (by decide)
  have hsplit : splitOnDash (q ++ '-' :: (ds ++ tsSfx)) =
      [q, ds ++ tsSfx] := by
    rw [splitOnDash_append _ hqd, splitOnDash_no_dash hddts]
  have hqmem : ¬ q ∈ streams := by simpa using hq
  unfold ServeHTTP
  rw [if_neg hne]
  simp [hm3u8, hts, hmp4, hsplit, trimSuffix_append, hatoi, hqmem]

theorem serveHTTP_unknown_mp4_segment (streams : List GoStr)
    (q ds : GoStr) (n : Int)
    (hq : streams.contains q = false)
    (hq2 : streams.contains (q ++ '-' :: ds) = false)
    (hqd : '-' ∉ q) (hdd : '-' ∉ ds) (hatoi : atoi ds = some n) :
    ServeHTTP streams (q ++ '-' :: (ds ++ mp4Sfx)) =
      HttpResponse.fullVideo qualityMax := by
  have hassoc : q ++ '-' :: (ds ++ mp4Sfx) = (q ++ '-' :: ds) ++ mp4Sfx := by
    simp
  have hsuf : mp4Sfx <:+ q ++ '-' :: (ds ++ mp4Sfx) := by
    rw [hassoc]
    exact List.suffix_append _ _
  have hne := ne_indexName_of_mp4 hsuf
  have hm3u8 : hasSuffix (q ++ '-' :: (ds ++ mp4Sfx)) m3u8Sfx = false :=
    hasSuffix_false_of_suffix hsuf (by decide) (by decide)
  have hts : hasSuffix (q ++ '-' :: (ds ++ mp4Sfx)) tsSfx = false :=
    hasSuffix_false_of_suffix hsuf (by decide) (by decide)
  have hmp4 : hasSuffix (q ++ '-' :: (ds ++ mp4Sfx)) mp4Sfx = true :=
    decide_eq_true hsuf
  have hddmp4 : '-' ∉ ds ++ mp4Sfx := by
    intro hmem
    rcases List.mem_append.1 hmem with hmem | hmem
    · exact hdd hmem
    · exact absurd hmem (by decide)
  have hsplit : splitOnDash (q ++ '-' :: (ds ++ mp4Sfx)) =
      [q, ds ++ mp4Sfx] := by
    rw [splitOnDash_append _ hqd, splitOnDash_no_dash hddmp4]
  have htrimFull : trimSuffix (q ++ '-' :: (ds ++ mp4Sfx)) mp4Sfx =
      q ++ '-' :: ds := by
    rw [hassoc]
    exact trimSuffix_append _ _
  have hqmem : ¬ q ∈ streams := by simpa using hq
  have hq2mem : ¬ (q ++ '-' :: ds) ∈ streams := by simpa using hq2
  unfold ServeHTTP
  rw [if_neg hne]
  simp [hm3u8, hts, hmp4, hsplit, trimSuffix_append, hatoi, hqmem, htrimFull,
    hq2mem]

theorem serveHTTP_dashfree_mp4 (streams : List GoStr) (q : GoStr)
    (hqd : '-' ∉ q) :
    ServeHTTP streams (q ++ mp4Sfx) = HttpResponse.badRequest := by
  have hsuf : mp4Sfx <:+ q ++ mp4Sfx := List.suffix_append q mp4Sfx
  have hne := ne_indexName_of_mp4 hsuf
  have hm3u8 : hasSuffix (q ++ mp4Sfx) m3u8Sfx = false :=
    hasSuffix_false_of_suffix hsuf (by decide) (by decide)
  have hmp4 : hasSuffix (q ++ mp4Sfx) mp4Sfx = true := decide_eq_true hsuf
  have hqmp4 : '-' ∉ q ++ mp4Sfx := by
    intro hmem
    rcases List.mem_append.1 hmem with hmem | hmem
    · exact hqd hmem
    · exact absurd hmem (by decide)
  have hsplit : splitOnDash (q ++ mp4Sfx) = [q ++ mp4Sfx] :=
    splitOnDash_no_dash hqmp4
  unfold ServeHTTP
  rw [if_neg hne]
  simp [hm3u8, hmp4, hsplit]

/-- C7 amended. Requests naming an unknown quality return 404 for
playlists (`q.m3u8`, `q ≠ index`) and for well-formed `.ts` segments
(`q-NNNNNN.ts`); but a well-formed `.mp4` segment request with unknown
quality falls through to the full-video handler and is served as the `max`
stream's full video (status 200), and a dash-free full-video request
`q.mp4` — known or unknown quality alike — is parsed as a malformed
segment name and returns 400, never 404. -/
theorem ServeHTTP_unknown_quality_behavior :
    (∀ streams q, streams.contains q = false → ¬ q = "index".toList →
      ServeHTTP streams (q ++ m3u8Sfx) = HttpResponse.notFound) ∧
    (∀ streams q ds n, streams.contains q = false → '-' ∉ q → '-' ∉ ds →
      atoi ds = some n →
      ServeHTTP streams (q ++ '-' :: (ds ++ tsSfx)) =
        HttpResponse.notFound) ∧
    (∀ streams q ds n, streams.contains q = false →
      streams.contains (q ++ '-' :: ds) = false → '-' ∉ q → '-' ∉ ds →
      atoi ds = some n →
      ServeHTTP streams (q ++ '-' :: (ds ++ mp4Sfx)) =
        HttpResponse.fullVideo qualityMax) ∧
    (∀ streams q, '-' ∉ q →
      ServeHTTP streams (q ++ mp4Sfx) = HttpResponse.badRequest) :=
  ⟨serveHTTP_unknown_m3u8,
   fun streams q ds n hq hqd hdd hatoi =>
     serveHTTP_unknown_ts_segment streams q ds n hq hqd hdd hatoi,
   fun streams q ds n hq hq2 hqd hdd hatoi =>
     serveHTTP_unknown_mp4_segment streams q ds n hq hq2 hqd hdd hatoi,
   serveHTTP_dashfree_mp4⟩

/-- C7 witness: the amended statement at the unknown quality `foo` against
the streams `max` and `720p`. -/
theorem ServeHTTP_unknown_quality_behavior_witness :
    ServeHTTP streams0 ("foo".toList ++ m3u8Sfx) = HttpResponse.notFound ∧
    ServeHTTP streams0 ("foo".toList ++ '-' :: ("000001".toList ++ tsSfx)) =
      HttpResponse.notFound ∧
    ServeHTTP streams0 ("foo".toList ++ '-' :: ("000001".toList ++ mp4Sfx)) =
      HttpResponse.fullVideo qualityMax ∧
    ServeHTTP streams0 ("foo".toList ++ mp4Sfx) = HttpResponse.badRequest :=
  ⟨ServeHTTP_unknown_quality_behavior.1 streams0 _ (by decide) (by decide),
   ServeHTTP_unknown_quality_behavior.2.1 streams0 _ _ 1 (by decide)
     (by decide) (by decide) (by decide),
   ServeHTTP_unknown_quality_behavior.2.2.1 streams0 _ _ 1 (by decide)
     (by decide) (by decide) (by decide) (by decide),
   ServeHTTP_unknown_quality_behavior.2.2.2 streams0 _ (by decide)⟩

end GoVod
